import Mathlib

/-
Verification of the shared-ownership smart-pointer core in
src/include/shared_ptr_2.h (namespace experimental).

The embedding is operational: a World holds the control blocks created so
far (counters of state_base plus event counters recording how many times
release_ptr, that is the deleter, and destroy, that is the freeing of the
block storage, have run), together with the shared_ptr handles and the
weak_ptr observers created so far.  Every shared_ptr special member of the
source is translated to a step on this World.  The class weak_ptr is only
forward declared in the sources (line 173); everything about it is
modelled from the spec and marked as such.
-/

namespace SharedPtr2

/-- Pointer values of the model: none stands for nullptr, some a for the
address a. -/
abbrev Ptr := Option Nat

/-- One control block, as in class state_base (lines 56 to 78): the
counter shared_counter_ and the counter weak_counter_, both atomic_int in
the source and carried here as Int, plus two event counters.
deleterCalls counts the invocations of release_ptr, which runs the
deleter on the managed pointer; destroyCalls counts the invocations of
destroy, which frees the storage of the block itself. -/
structure Block where
  strong : Int
  weak : Int
  deleterCalls : Nat
  destroyCalls : Nat
deriving DecidableEq

/-- A freshly made control block: state_base initializes
shared_counter_ to 1 and weak_counter_ to 1 (lines 61 and 62). -/
def Block.fresh : Block :=
  { strong := 1, weak := 1, deleterCalls := 0, destroyCalls := 0 }

/-- Translation of state_base release (lines 69 to 77): pre-decrement
shared_counter_; when the decremented value is 0, run release_ptr (the
deleter), pre-decrement weak_counter_, and when that decremented value is
0 as well, run destroy. -/
def Block.release (b : Block) : Block :=
  let s := b.strong - 1
  if s = 0 then
    let w := b.weak - 1
    if w = 0 then
      { strong := s, weak := w, deleterCalls := b.deleterCalls + 1,
        destroyCalls := b.destroyCalls + 1 }
    else
      { strong := s, weak := w, deleterCalls := b.deleterCalls + 1,
        destroyCalls := b.destroyCalls }
  else
    { b with strong := s }

/-- Increment of shared_counter_, performed by the copy constructor of
shared_state on a non-null base_ (lines 148 to 153). -/
def Block.incStrong (b : Block) : Block :=
  { b with strong := b.strong + 1 }

/-- Modelled from the spec: creating a weak observer of a block
increments only weakCount (spec section 4.4); class weak_ptr is absent
from the sources. -/
def Block.incWeak (b : Block) : Block :=
  { b with weak := b.weak + 1 }

/-- Modelled from the spec: dropping a weak observer of a block
decrements weakCount and fires destroySelf exactly when the decremented
value is 0 (spec sections 4.2 and 4.4); class weak_ptr is absent from the
sources. -/
def Block.weakRelease (b : Block) : Block :=
  let w := b.weak - 1
  if w = 0 then
    { b with weak := w, destroyCalls := b.destroyCalls + 1 }
  else
    { b with weak := w }

/-- The data of a shared_ptr handle (lines 181 and 182): the exposed
pointer ptr_ and the base_ field of its shared_state member, an optional
reference to a control block given here by its index.  The field live
records whether the C++ object is still within its lifetime. -/
structure SPtr where
  ptr : Ptr
  blk : Option Nat
  live : Bool
deriving DecidableEq

/-- The data of a weak_ptr observer, modelled from the spec (section 3):
an exposed pointer and an optional control block reference that
contributes only to weakCount; class weak_ptr is absent from the
sources. -/
structure WPtr where
  ptr : Ptr
  blk : Option Nat
  live : Bool
deriving DecidableEq

/-- A dead or never-created handle slot. -/
def SPtr.none : SPtr := { ptr := Option.none, blk := Option.none, live := false }

/-- A dead or never-created weak slot. -/
def WPtr.none : WPtr := { ptr := Option.none, blk := Option.none, live := false }

/-- The world: nb control blocks, nh shared_ptr handle slots and nw
weak_ptr slots, each stored as a total function from indices. -/
structure World where
  nb : Nat
  blocks : Nat → Block
  nh : Nat
  handles : Nat → SPtr
  nw : Nat
  weaks : Nat → WPtr

/-- Pointwise function update at one index. -/
def updFn {α : Type} (f : Nat → α) (i : Nat) (v : α) : Nat → α :=
  fun j => if j = i then v else f j

@[simp]
theorem updFn_same {α : Type} (f : Nat → α) (i : Nat) (v : α) :
    updFn f i v i = v := by
  simp [updFn]

theorem updFn_other {α : Type} (f : Nat → α) (i j : Nat) (v : α)
    (h : j ≠ i) : updFn f i v j = f j := by
  simp [updFn, h]

/-- The world before any operation. -/
def World.empty : World :=
  { nb := 0, blocks := fun _ => Block.fresh,
    nh := 0, handles := fun _ => SPtr.none,
    nw := 0, weaks := fun _ => WPtr.none }

/-- Apply a function to the control block at index b. -/
def World.modBlock (w : World) (b : Nat) (f : Block → Block) : World :=
  { w with blocks := updFn w.blocks b (f (w.blocks b)) }

/-- Append a new live shared_ptr handle. -/
def World.pushHandle (w : World) (h : SPtr) : World :=
  { w with nh := w.nh + 1, handles := updFn w.handles w.nh h }

/-- Append a new live weak_ptr observer. -/
def World.pushWeak (w : World) (x : WPtr) : World :=
  { w with nw := w.nw + 1, weaks := updFn w.weaks w.nw x }

/-- The lifecycle operations of the handles.  mkDefault is the default
constructor (line 192).  mkOwning covers the owning constructors taking a
raw pointer, a pointer and a deleter, or a pointer, a deleter and an
allocator (lines 194 to 279): each makes one fresh control block; the
deleter and the allocator play no role in the counter protocol, their
failure paths are treated separately.  copy is the copy constructor
(lines 286 to 291), mv the move constructor (lines 293 to 302), alias
the aliasing constructor (lines 281 to 284) and drop the destructor
(line 334, which runs the shared_state destructor of lines 160 to 165).
mkWeak, copyWeak and dropWeak are the weak_ptr lifecycle, modelled from
the spec (section 4.4) because class weak_ptr is absent from the
sources. -/
inductive Op where
  | mkDefault : Op
  | mkOwning : Ptr → Op
  | copy : Nat → Op
  | mv : Nat → Op
  | aliasc : Nat → Ptr → Op
  | drop : Nat → Op
  | mkWeak : Nat → Op
  | copyWeak : Nat → Op
  | dropWeak : Nat → Op

/-- One step of the lifecycle.  Operations naming an index that is out of
range or a slot whose object is no longer alive are undefined behaviour
in C++ and are modelled as no-ops. -/
def step (w : World) (op : Op) : World :=
  match op with
  | Op.mkDefault =>
      w.pushHandle { ptr := Option.none, blk := Option.none, live := true }
  | Op.mkOwning p =>
      let w1 := { w with nb := w.nb + 1, blocks := updFn w.blocks w.nb Block.fresh }
      w1.pushHandle { ptr := p, blk := some w.nb, live := true }
  | Op.copy i =>
      if i < w.nh ∧ (w.handles i).live = true then
        match (w.handles i).blk with
        | some b =>
            (w.modBlock b Block.incStrong).pushHandle
              { ptr := (w.handles i).ptr, blk := some b, live := true }
        | Option.none =>
            w.pushHandle { ptr := (w.handles i).ptr, blk := Option.none, live := true }
      else w
  | Op.mv i =>
      if i < w.nh ∧ (w.handles i).live = true then
        let h := w.handles i
        let emptied : SPtr := { ptr := Option.none, blk := Option.none, live := true }
        let w1 := { w with handles := updFn w.handles i emptied }
        w1.pushHandle { ptr := h.ptr, blk := h.blk, live := true }
      else w
  | Op.aliasc i q =>
      if i < w.nh ∧ (w.handles i).live = true then
        match (w.handles i).blk with
        | some b =>
            (w.modBlock b Block.incStrong).pushHandle
              { ptr := q, blk := some b, live := true }
        | Option.none =>
            w.pushHandle { ptr := q, blk := Option.none, live := true }
      else w
  | Op.drop i =>
      if i < w.nh ∧ (w.handles i).live = true then
        let h := w.handles i
        let w1 := { w with handles := updFn w.handles i SPtr.none }
        match h.blk with
        | some b => w1.modBlock b Block.release
        | Option.none => w1
      else w
  | Op.mkWeak i =>
      if i < w.nh ∧ (w.handles i).live = true then
        match (w.handles i).blk with
        | some b =>
            (w.modBlock b Block.incWeak).pushWeak
              { ptr := (w.handles i).ptr, blk := some b, live := true }
        | Option.none =>
            w.pushWeak { ptr := (w.handles i).ptr, blk := Option.none, live := true }
      else w
  | Op.copyWeak j =>
      if j < w.nw ∧ (w.weaks j).live = true then
        match (w.weaks j).blk with
        | some b =>
            (w.modBlock b Block.incWeak).pushWeak
              { ptr := (w.weaks j).ptr, blk := some b, live := true }
        | Option.none =>
            w.pushWeak { ptr := (w.weaks j).ptr, blk := Option.none, live := true }
      else w
  | Op.dropWeak j =>
      if j < w.nw ∧ (w.weaks j).live = true then
        let x := w.weaks j
        let w1 := { w with weaks := updFn w.weaks j WPtr.none }
        match x.blk with
        | some b => w1.modBlock b Block.weakRelease
        | Option.none => w1
      else w

/-- Run a list of operations from the empty world. -/
def run (ops : List Op) : World :=
  ops.foldl step World.empty

/-- Translation of shared_ptr use_count (line 363) through shared_state
use_count (line 167): the value of shared_counter_ when base_ is not
null, otherwise 0. -/
def World.useCount (w : World) (i : Nat) : Int :=
  match (w.handles i).blk with
  | some b => (w.blocks b).strong
  | Option.none => 0

/-- Translation of shared_ptr get (line 360). -/
def World.getP (w : World) (i : Nat) : Ptr :=
  (w.handles i).ptr

/-- Translation of the explicit bool conversion (line 365): get is not
equal to nullptr. -/
def World.toB (w : World) (i : Nat) : Bool :=
  decide ((w.handles i).ptr ≠ Option.none)

/-- Sum of a Nat-valued weight over the slots of index below n. -/
def cnt {α : Type} (wt : α → Nat) (f : Nat → α) (n : Nat) : Nat :=
  match n with
  | 0 => 0
  | Nat.succ m => cnt wt f m + wt (f m)

theorem cnt_congr {α : Type} (wt : α → Nat) (f g : Nat → α) (n : Nat)
    (h : ∀ i, i < n → f i = g i) : cnt wt f n = cnt wt g n := by
  induction n with
  | zero => rfl
  | succ m ih =>
      have hm : ∀ i, i < m → f i = g i := fun i hi => h i (Nat.lt_succ_of_lt hi)
      simp [cnt, ih hm, h m (Nat.lt_succ_self m)]

theorem cnt_updFn_ge {α : Type} (wt : α → Nat) (f : Nat → α) (n i : Nat)
    (v : α) (h : n ≤ i) : cnt wt (updFn f i v) n = cnt wt f n := by
  apply cnt_congr
  intro j hj
  exact updFn_other f i j v (Nat.ne_of_lt (Nat.lt_of_lt_of_le hj h))

theorem cnt_updFn_lt {α : Type} (wt : α → Nat) (f : Nat → α) (n i : Nat)
    (v : α) (h : i < n) :
    cnt wt (updFn f i v) n + wt (f i) = cnt wt f n + wt v := by
  induction n with
  | zero => exact absurd h (Nat.not_lt_zero i)
  | succ m ih =>
      by_cases hi : i = m
      · subst hi
        have : cnt wt (updFn f i v) i = cnt wt f i :=
          cnt_updFn_ge wt f i i v (Nat.le_refl i)
        simp [cnt, this]
        omega
      · have him : i < m := Nat.lt_of_le_of_ne (Nat.lt_succ_iff.mp h) hi
        have hrec := ih him
        have hm : updFn f i v m = f m := updFn_other f i m v (Ne.symm hi)
        simp [cnt, hm]
        omega

theorem cnt_push {α : Type} (wt : α → Nat) (f : Nat → α) (n : Nat) (v : α) :
    cnt wt (updFn f n v) (n + 1) = cnt wt f n + wt v := by
  simp [cnt, cnt_updFn_ge wt f n n v (Nat.le_refl n)]

theorem cnt_zero {α : Type} (wt : α → Nat) (f : Nat → α) (n : Nat)
    (h : ∀ i, i < n → wt (f i) = 0) : cnt wt f n = 0 := by
  induction n with
  | zero => rfl
  | succ m ih =>
      have hm : ∀ i, i < m → wt (f i) = 0 := fun i hi => h i (Nat.lt_succ_of_lt hi)
      simp [cnt, ih hm, h m (Nat.lt_succ_self m)]

theorem cnt_pos {α : Type} (wt : α → Nat) (f : Nat → α) (n i : Nat)
    (hi : i < n) (h : 1 ≤ wt (f i)) : 1 ≤ cnt wt f n := by
  induction n with
  | zero => exact absurd hi (Nat.not_lt_zero i)
  | succ m ih =>
      by_cases him : i = m
      · subst him
        simp [cnt]
        omega
      · have := ih (Nat.lt_of_le_of_ne (Nat.lt_succ_iff.mp hi) him)
        simp [cnt]
        omega

/-- Weight of a live shared handle referencing block b. -/
def indS (b : Nat) (h : SPtr) : Nat :=
  if h.live = true ∧ h.blk = some b then 1 else 0

/-- Weight of a live weak observer referencing block b. -/
def indW (b : Nat) (x : WPtr) : Nat :=
  if x.live = true ∧ x.blk = some b then 1 else 0

/-- Number of live shared_ptr handles whose shared_state references
block b. -/
def strongRefs (w : World) (b : Nat) : Nat :=
  cnt (indS b) w.handles w.nh

/-- Number of live weak_ptr observers referencing block b. -/
def weakRefs (w : World) (b : Nat) : Nat :=
  cnt (indW b) w.weaks w.nw

/-- The reachable-state invariant of the two-phase counting protocol.
For every control block: shared_counter_ equals the number of live
strong handles; weak_counter_ equals the number of live weak observers
plus the one implicit weak reference that exists exactly while the
pointee is not yet released; the deleter has run exactly once as soon as
shared_counter_ has reached 0 and never before; the block storage has
been freed exactly once as soon as weak_counter_ has reached 0 and never
before.  The two range conditions tie every referenced block to an
existing one. -/
structure Inv (w : World) : Prop where
  hS : ∀ b, b < w.nb → (w.blocks b).strong = (strongRefs w b : Int)
  hW : ∀ b, b < w.nb → (w.blocks b).weak =
      (weakRefs w b : Int) + (if (w.blocks b).strong = 0 then 0 else 1)
  hDel : ∀ b, b < w.nb →
      (w.blocks b).deleterCalls = (if (w.blocks b).strong = 0 then 1 else 0)
  hDes : ∀ b, b < w.nb →
      (w.blocks b).destroyCalls = (if (w.blocks b).weak = 0 then 1 else 0)
  hHB : ∀ i b, i < w.nh → (w.handles i).blk = some b → b < w.nb
  hWB : ∀ j b, j < w.nw → (w.weaks j).blk = some b → b < w.nb

theorem blocks_pushHandle (w : World) (v : SPtr) :
    (w.pushHandle v).blocks = w.blocks := rfl

theorem nb_pushHandle (w : World) (v : SPtr) :
    (w.pushHandle v).nb = w.nb := rfl

theorem nh_pushHandle (w : World) (v : SPtr) :
    (w.pushHandle v).nh = w.nh + 1 := rfl

theorem handles_pushHandle (w : World) (v : SPtr) :
    (w.pushHandle v).handles = updFn w.handles w.nh v := rfl

theorem weaks_pushHandle (w : World) (v : SPtr) :
    (w.pushHandle v).weaks = w.weaks := rfl

theorem nw_pushHandle (w : World) (v : SPtr) :
    (w.pushHandle v).nw = w.nw := rfl

theorem blocks_pushWeak (w : World) (x : WPtr) :
    (w.pushWeak x).blocks = w.blocks := rfl

theorem nb_pushWeak (w : World) (x : WPtr) :
    (w.pushWeak x).nb = w.nb := rfl

theorem nh_pushWeak (w : World) (x : WPtr) :
    (w.pushWeak x).nh = w.nh := rfl

theorem handles_pushWeak (w : World) (x : WPtr) :
    (w.pushWeak x).handles = w.handles := rfl

theorem weaks_pushWeak (w : World) (x : WPtr) :
    (w.pushWeak x).weaks = updFn w.weaks w.nw x := rfl

theorem nw_pushWeak (w : World) (x : WPtr) :
    (w.pushWeak x).nw = w.nw + 1 := rfl

theorem nb_modBlock (w : World) (b0 : Nat) (f : Block → Block) :
    (w.modBlock b0 f).nb = w.nb := rfl

theorem nh_modBlock (w : World) (b0 : Nat) (f : Block → Block) :
    (w.modBlock b0 f).nh = w.nh := rfl

theorem handles_modBlock (w : World) (b0 : Nat) (f : Block → Block) :
    (w.modBlock b0 f).handles = w.handles := rfl

theorem weaks_modBlock (w : World) (b0 : Nat) (f : Block → Block) :
    (w.modBlock b0 f).weaks = w.weaks := rfl

theorem nw_modBlock (w : World) (b0 : Nat) (f : Block → Block) :
    (w.modBlock b0 f).nw = w.nw := rfl

theorem strongRefs_pushHandle (w : World) (v : SPtr) (b : Nat) :
    strongRefs (w.pushHandle v) b = strongRefs w b + indS b v := by
  simp [strongRefs, World.pushHandle, cnt_push]

theorem weakRefs_pushHandle (w : World) (v : SPtr) (b : Nat) :
    weakRefs (w.pushHandle v) b = weakRefs w b := rfl

theorem strongRefs_pushWeak (w : World) (x : WPtr) (b : Nat) :
    strongRefs (w.pushWeak x) b = strongRefs w b := rfl

theorem weakRefs_pushWeak (w : World) (x : WPtr) (b : Nat) :
    weakRefs (w.pushWeak x) b = weakRefs w b + indW b x := by
  simp [weakRefs, World.pushWeak, cnt_push]

theorem strongRefs_modBlock (w : World) (b0 : Nat) (f : Block → Block)
    (b : Nat) : strongRefs (w.modBlock b0 f) b = strongRefs w b := rfl

theorem weakRefs_modBlock (w : World) (b0 : Nat) (f : Block → Block)
    (b : Nat) : weakRefs (w.modBlock b0 f) b = weakRefs w b := rfl

theorem blocks_modBlock_same (w : World) (b0 : Nat) (f : Block → Block) :
    (w.modBlock b0 f).blocks b0 = f (w.blocks b0) := by
  simp [World.modBlock]

theorem blocks_modBlock_other (w : World) (b0 : Nat) (f : Block → Block)
    (b : Nat) (h : b ≠ b0) : (w.modBlock b0 f).blocks b = w.blocks b := by
  simp [World.modBlock, updFn_other _ _ _ _ h]

/-- A block index never referenced by any handle or weak in range has no
references. -/
theorem strongRefs_out (w : World) (hw : Inv w) (b : Nat) (hb : ¬ b < w.nb) :
    strongRefs w b = 0 := by
  apply cnt_zero
  intro i hi
  simp only [indS]
  by_cases hl : (w.handles i).live = true ∧ (w.handles i).blk = some b
  · exact absurd (hw.hHB i b hi hl.2) hb
  · simp [hl]

theorem weakRefs_out (w : World) (hw : Inv w) (b : Nat) (hb : ¬ b < w.nb) :
    weakRefs w b = 0 := by
  apply cnt_zero
  intro j hj
  simp only [indW]
  by_cases hl : (w.weaks j).live = true ∧ (w.weaks j).blk = some b
  · exact absurd (hw.hWB j b hj hl.2) hb
  · simp [hl]

/-- Pushing a live handle that references no block preserves the
invariant. -/
theorem inv_pushHandle_none (w : World) (hw : Inv w) (p : Ptr) :
    Inv (w.pushHandle { ptr := p, blk := Option.none, live := true }) := by
  refine ⟨?_, ?_, ?_, ?_, ?_, ?_⟩
  · intro b hb
    have h0 : indS b { ptr := p, blk := Option.none, live := true } = 0 := by
      simp [indS]
    have := hw.hS b hb
    rw [strongRefs_pushHandle, h0]
    simpa [World.pushHandle] using this
  · intro b hb
    have := hw.hW b hb
    simpa [World.pushHandle, weakRefs_pushHandle] using this
  · intro b hb
    have := hw.hDel b hb
    simpa [World.pushHandle] using this
  · intro b hb
    have := hw.hDes b hb
    simpa [World.pushHandle] using this
  · intro i b hi hblk
    by_cases hin : i = w.nh
    · subst hin
      simp [World.pushHandle, updFn_same] at hblk
    · have hi2 : i < w.nh + 1 := hi
      have hi3 : i < w.nh := by omega
      rw [show (w.pushHandle { ptr := p, blk := Option.none, live := true }).handles i
            = w.handles i from updFn_other _ _ _ _ hin] at hblk
      exact hw.hHB i b hi3 hblk
  · intro j b hj hblk
    exact hw.hWB j b hj hblk

/-- Pushing a live weak observer that references no block preserves the
invariant. -/
theorem inv_pushWeak_none (w : World) (hw : Inv w) (p : Ptr) :
    Inv (w.pushWeak { ptr := p, blk := Option.none, live := true }) := by
  refine ⟨?_, ?_, ?_, ?_, ?_, ?_⟩
  · intro b hb
    have := hw.hS b hb
    simpa [World.pushWeak, strongRefs_pushWeak] using this
  · intro b hb
    have h0 : indW b { ptr := p, blk := Option.none, live := true } = 0 := by
      simp [indW]
    have := hw.hW b hb
    rw [weakRefs_pushWeak, h0]
    simpa [World.pushWeak] using this
  · intro b hb
    have := hw.hDel b hb
    simpa [World.pushWeak] using this
  · intro b hb
    have := hw.hDes b hb
    simpa [World.pushWeak] using this
  · intro i b hi hblk
    exact hw.hHB i b hi hblk
  · intro j b hj hblk
    by_cases hjn : j = w.nw
    · subst hjn
      simp [World.pushWeak, updFn_same] at hblk
    · have hj2 : j < w.nw + 1 := hj
      have hj3 : j < w.nw := by omega
      rw [show (w.pushWeak { ptr := p, blk := Option.none, live := true }).weaks j
            = w.weaks j from updFn_other _ _ _ _ hjn] at hblk
      exact hw.hWB j b hj3 hblk

/-- Sharing a block from a live strong handle: incrementing
shared_counter_ and pushing a live handle referencing the block
preserves the invariant. -/
theorem inv_strongInto (w : World) (hw : Inv w) (b0 : Nat) (p : Ptr)
    (hb0 : b0 < w.nb) (hpos : 0 < (w.blocks b0).strong) :
    Inv ((w.modBlock b0 Block.incStrong).pushHandle
      { ptr := p, blk := some b0, live := true }) := by
  refine ⟨?_, ?_, ?_, ?_, ?_, ?_⟩
  · intro b hb
    have hb2 : b < w.nb := hb
    simp only [blocks_pushHandle, strongRefs_pushHandle, strongRefs_modBlock]
    by_cases hbb : b = b0
    · subst hbb
      simp only [blocks_modBlock_same]
      have h1 : indS b { ptr := p, blk := some b, live := true } = 1 := by
        simp [indS]
      have hs := hw.hS b hb2
      simp only [Block.incStrong, h1]
      omega
    · simp only [blocks_modBlock_other _ _ _ _ hbb]
      have h0 : indS b { ptr := p, blk := some b0, live := true } = 0 := by
        simp [indS]
        omega
      rw [h0]
      simpa using hw.hS b hb2
  · intro b hb
    have hb2 : b < w.nb := hb
    simp only [blocks_pushHandle, weakRefs_pushHandle, weakRefs_modBlock]
    by_cases hbb : b = b0
    · subst hbb
      simp only [blocks_modBlock_same]
      have hwk := hw.hW b hb2
      have hs := hw.hS b hb2
      simp only [Block.incStrong]
      have hne : ¬ (w.blocks b).strong = 0 := by omega
      have hne2 : ¬ (w.blocks b).strong + 1 = 0 := by omega
      simp only [hne, hne2, if_false] at hwk ⊢
      exact hwk
    · simp only [blocks_modBlock_other _ _ _ _ hbb]
      exact hw.hW b hb2
  · intro b hb
    have hb2 : b < w.nb := hb
    simp only [blocks_pushHandle]
    by_cases hbb : b = b0
    · subst hbb
      simp only [blocks_modBlock_same]
      have hd := hw.hDel b hb2
      simp only [Block.incStrong]
      have hne : ¬ (w.blocks b).strong = 0 := by omega
      have hne2 : ¬ (w.blocks b).strong + 1 = 0 := by omega
      simp only [hne, hne2, if_false] at hd ⊢
      exact hd
    · simp only [blocks_modBlock_other _ _ _ _ hbb]
      exact hw.hDel b hb2
  · intro b hb
    have hb2 : b < w.nb := hb
    simp only [blocks_pushHandle]
    by_cases hbb : b = b0
    · subst hbb
      simp only [blocks_modBlock_same]
      have hd := hw.hDes b hb2
      simpa [Block.incStrong] using hd
    · simp only [blocks_modBlock_other _ _ _ _ hbb]
      exact hw.hDes b hb2
  · intro i b hi hblk
    simp only [handles_pushHandle, nh_pushHandle, nh_modBlock,
      handles_modBlock, nb_pushHandle, nb_modBlock] at hi hblk ⊢
    by_cases hin : i = w.nh
    · rw [hin, updFn_same] at hblk
      simp at hblk
      rw [← hblk]
      exact hb0
    · have hi3 : i < w.nh := by omega
      rw [updFn_other _ _ _ _ hin] at hblk
      exact hw.hHB i b hi3 hblk
  · intro j b hj hblk
    exact hw.hWB j b hj hblk

/-- Observing a block weakly: incrementing weak_counter_ and pushing a
live weak observer referencing the block preserves the invariant.
Modelled from the spec since class weak_ptr is absent from the
sources. -/
theorem inv_weakInto (w : World) (hw : Inv w) (b0 : Nat) (p : Ptr)
    (hb0 : b0 < w.nb) (hpos : 0 < (w.blocks b0).weak) :
    Inv ((w.modBlock b0 Block.incWeak).pushWeak
      { ptr := p, blk := some b0, live := true }) := by
  refine ⟨?_, ?_, ?_, ?_, ?_, ?_⟩
  · intro b hb
    have hb2 : b < w.nb := hb
    simp only [blocks_pushWeak, strongRefs_pushWeak, strongRefs_modBlock]
    by_cases hbb : b = b0
    · subst hbb
      simp only [blocks_modBlock_same, Block.incWeak]
      exact hw.hS b hb2
    · simp only [blocks_modBlock_other _ _ _ _ hbb]
      exact hw.hS b hb2
  · intro b hb
    have hb2 : b < w.nb := hb
    simp only [blocks_pushWeak, weakRefs_pushWeak, weakRefs_modBlock]
    by_cases hbb : b = b0
    · subst hbb
      simp only [blocks_modBlock_same, Block.incWeak]
      have h1 : indW b { ptr := p, blk := some b, live := true } = 1 := by
        simp [indW]
      have hwk := hw.hW b hb2
      rw [h1]
      omega
    · simp only [blocks_modBlock_other _ _ _ _ hbb]
      have h0 : indW b { ptr := p, blk := some b0, live := true } = 0 := by
        simp [indW]
        omega
      rw [h0]
      simpa using hw.hW b hb2
  · intro b hb
    have hb2 : b < w.nb := hb
    simp only [blocks_pushWeak]
    by_cases hbb : b = b0
    · subst hbb
      simp only [blocks_modBlock_same, Block.incWeak]
      exact hw.hDel b hb2
    · simp only [blocks_modBlock_other _ _ _ _ hbb]
      exact hw.hDel b hb2
  · intro b hb
    have hb2 : b < w.nb := hb
    simp only [blocks_pushWeak]
    by_cases hbb : b = b0
    · subst hbb
      simp only [blocks_modBlock_same, Block.incWeak]
      have hd := hw.hDes b hb2
      have hne : ¬ (w.blocks b).weak = 0 := by omega
      have hne2 : ¬ (w.blocks b).weak + 1 = 0 := by omega
      simp only [hne, hne2, if_false] at hd ⊢
      exact hd
    · simp only [blocks_modBlock_other _ _ _ _ hbb]
      exact hw.hDes b hb2
  · intro i b hi hblk
    exact hw.hHB i b hi hblk
  · intro j b hj hblk
    simp only [weaks_pushWeak, nw_pushWeak, nw_modBlock,
      weaks_modBlock, nb_pushWeak, nb_modBlock] at hj hblk ⊢
    by_cases hjn : j = w.nw
    · rw [hjn, updFn_same] at hblk
      simp at hblk
      rw [← hblk]
      exact hb0
    · have hj3 : j < w.nw := by omega
      rw [updFn_other _ _ _ _ hjn] at hblk
      exact hw.hWB j b hj3 hblk

theorem release_strong (B : Block) : (Block.release B).strong = B.strong - 1 := by
  by_cases hc : B.strong - 1 = 0
  · by_cases hd : B.weak - 1 = 0 <;> simp [Block.release, hc, hd]
  · simp [Block.release, hc]

theorem release_weak (B : Block) :
    (Block.release B).weak = if B.strong - 1 = 0 then B.weak - 1 else B.weak := by
  by_cases hc : B.strong - 1 = 0
  · by_cases hd : B.weak - 1 = 0 <;> simp [Block.release, hc, hd]
  · simp [Block.release, hc]

theorem release_del (B : Block) :
    (Block.release B).deleterCalls =
      if B.strong - 1 = 0 then B.deleterCalls + 1 else B.deleterCalls := by
  by_cases hc : B.strong - 1 = 0
  · by_cases hd : B.weak - 1 = 0 <;> simp [Block.release, hc, hd]
  · simp [Block.release, hc]

theorem release_des (B : Block) :
    (Block.release B).destroyCalls =
      if B.strong - 1 = 0 then
        (if B.weak - 1 = 0 then B.destroyCalls + 1 else B.destroyCalls)
      else B.destroyCalls := by
  by_cases hc : B.strong - 1 = 0
  · by_cases hd : B.weak - 1 = 0 <;> simp [Block.release, hc, hd]
  · simp [Block.release, hc]

theorem wrel_strong (B : Block) : (Block.weakRelease B).strong = B.strong := by
  by_cases hd : B.weak - 1 = 0 <;> simp [Block.weakRelease, hd]

theorem wrel_weak (B : Block) : (Block.weakRelease B).weak = B.weak - 1 := by
  by_cases hd : B.weak - 1 = 0 <;> simp [Block.weakRelease, hd]

theorem wrel_del (B : Block) :
    (Block.weakRelease B).deleterCalls = B.deleterCalls := by
  by_cases hd : B.weak - 1 = 0 <;> simp [Block.weakRelease, hd]

theorem wrel_des (B : Block) :
    (Block.weakRelease B).destroyCalls =
      if B.weak - 1 = 0 then B.destroyCalls + 1 else B.destroyCalls := by
  by_cases hd : B.weak - 1 = 0 <;> simp [Block.weakRelease, hd]

/-- Owning construction: a fresh block with both counters at 1 together
with a live handle referencing it preserves the invariant. -/
theorem inv_newBlock (w : World) (hw : Inv w) (p : Ptr) :
    Inv (({ w with nb := w.nb + 1, blocks := updFn w.blocks w.nb Block.fresh } : World).pushHandle
      { ptr := p, blk := some w.nb, live := true }) := by
  have hbl : (({ w with nb := w.nb + 1, blocks := updFn w.blocks w.nb Block.fresh } : World).pushHandle
      { ptr := p, blk := some w.nb, live := true }).blocks
      = updFn w.blocks w.nb Block.fresh := rfl
  refine ⟨?_, ?_, ?_, ?_, ?_, ?_⟩
  · intro b hb
    have hb2 : b < w.nb + 1 := hb
    rw [strongRefs_pushHandle]
    have hsr : strongRefs ({ w with nb := w.nb + 1, blocks := updFn w.blocks w.nb Block.fresh } : World) b = strongRefs w b := rfl
    simp only [hbl, hsr]
    by_cases hbb : b = w.nb
    · subst hbb
      rw [updFn_same]
      have h0 := strongRefs_out w hw w.nb (Nat.lt_irrefl w.nb)
      have h1 : indS w.nb { ptr := p, blk := some w.nb, live := true } = 1 := by
        simp [indS]
      rw [h0, h1]
      rfl
    · rw [updFn_other _ _ _ _ hbb]
      have h0 : indS b { ptr := p, blk := some w.nb, live := true } = 0 := by
        simp [indS]
        omega
      rw [h0]
      simpa using hw.hS b (by omega)
  · intro b hb
    have hb2 : b < w.nb + 1 := hb
    have hwr : weakRefs (({ w with nb := w.nb + 1, blocks := updFn w.blocks w.nb Block.fresh } : World).pushHandle
        { ptr := p, blk := some w.nb, live := true }) b = weakRefs w b := rfl
    simp only [hbl, hwr]
    by_cases hbb : b = w.nb
    · subst hbb
      rw [updFn_same]
      have h0 := weakRefs_out w hw w.nb (Nat.lt_irrefl w.nb)
      rw [h0]
      simp [Block.fresh]
    · rw [updFn_other _ _ _ _ hbb]
      exact hw.hW b (by omega)
  · intro b hb
    have hb2 : b < w.nb + 1 := hb
    simp only [hbl]
    by_cases hbb : b = w.nb
    · subst hbb
      rw [updFn_same]
      simp [Block.fresh]
    · rw [updFn_other _ _ _ _ hbb]
      exact hw.hDel b (by omega)
  · intro b hb
    have hb2 : b < w.nb + 1 := hb
    simp only [hbl]
    by_cases hbb : b = w.nb
    · subst hbb
      rw [updFn_same]
      simp [Block.fresh]
    · rw [updFn_other _ _ _ _ hbb]
      exact hw.hDes b (by omega)
  · intro i b hi hblk
    have hi2 : i < w.nh + 1 := hi
    have hh : (({ w with nb := w.nb + 1, blocks := updFn w.blocks w.nb Block.fresh } : World).pushHandle
        { ptr := p, blk := some w.nb, live := true }).handles
        = updFn w.handles w.nh { ptr := p, blk := some w.nb, live := true } := rfl
    rw [hh] at hblk
    show b < w.nb + 1
    by_cases hin : i = w.nh
    · rw [hin, updFn_same] at hblk
      simp at hblk
      omega
    · rw [updFn_other _ _ _ _ hin] at hblk
      have := hw.hHB i b (by omega) hblk
      omega
  · intro j b hj hblk
    have hj2 : j < w.nw := hj
    show b < w.nb + 1
    have := hw.hWB j b hj2 hblk
    omega

/-- Move construction: emptying the source slot while pushing a new
handle with the stolen fields preserves the invariant. -/
theorem inv_mv (w : World) (hw : Inv w) (i : Nat) (hi : i < w.nh)
    (hl : (w.handles i).live = true) :
    Inv (({ w with handles := updFn w.handles i { ptr := Option.none, blk := Option.none, live := true } } : World).pushHandle { ptr := (w.handles i).ptr, blk := (w.handles i).blk, live := true }) := by
  refine ⟨?_, ?_, ?_, ?_, ?_, ?_⟩
  · intro b hb
    have hb2 : b < w.nb := hb
    have hlt := cnt_updFn_lt (indS b) w.handles w.nh i
      { ptr := Option.none, blk := Option.none, live := true } hi
    have he : indS b { ptr := Option.none, blk := Option.none, live := true } = 0 := by
      simp [indS]
    have hv : indS b { ptr := (w.handles i).ptr, blk := (w.handles i).blk, live := true }
        = indS b (w.handles i) := by
      simp [indS, hl]
    have hs0 : (w.blocks b).strong = ((cnt (indS b) w.handles w.nh : Nat) : Int) :=
      hw.hS b hb2
    have hgoal : strongRefs (({ w with handles := updFn w.handles i { ptr := Option.none, blk := Option.none, live := true } } : World).pushHandle { ptr := (w.handles i).ptr, blk := (w.handles i).blk, live := true }) b
        = cnt (indS b) (updFn w.handles i { ptr := Option.none, blk := Option.none, live := true }) w.nh
          + indS b { ptr := (w.handles i).ptr, blk := (w.handles i).blk, live := true } := by
      rw [strongRefs_pushHandle]
      rfl
    rw [hgoal, hv]
    show (w.blocks b).strong = _
    omega
  · intro b hb
    exact hw.hW b hb
  · intro b hb
    exact hw.hDel b hb
  · intro b hb
    exact hw.hDes b hb
  · intro k b hk hblk
    have hk2 : k < w.nh + 1 := hk
    have hh : (({ w with handles := updFn w.handles i { ptr := Option.none, blk := Option.none, live := true } } : World).pushHandle { ptr := (w.handles i).ptr, blk := (w.handles i).blk, live := true }).handles
        = updFn (updFn w.handles i { ptr := Option.none, blk := Option.none, live := true }) w.nh
          { ptr := (w.handles i).ptr, blk := (w.handles i).blk, live := true } := rfl
    rw [hh] at hblk
    show b < w.nb
    by_cases hkn : k = w.nh
    · rw [hkn, updFn_same] at hblk
      exact hw.hHB i b hi hblk
    · rw [updFn_other _ _ _ _ hkn] at hblk
      by_cases hki : k = i
      · rw [hki, updFn_same] at hblk
        simp at hblk
      · rw [updFn_other _ _ _ _ hki] at hblk
        exact hw.hHB k b (by omega) hblk
  · intro j b hj hblk
    exact hw.hWB j b hj hblk

/-- Destroying a handle that references no block preserves the
invariant. -/
theorem inv_dropNone (w : World) (hw : Inv w) (i : Nat) (hi : i < w.nh)
    (_hl : (w.handles i).live = true) (hblk : (w.handles i).blk = Option.none) :
    Inv ({ w with handles := updFn w.handles i SPtr.none } : World) := by
  refine ⟨?_, ?_, ?_, ?_, ?_, ?_⟩
  · intro b hb
    have hb2 : b < w.nb := hb
    have hlt := cnt_updFn_lt (indS b) w.handles w.nh i SPtr.none hi
    have he : indS b SPtr.none = 0 := by simp [indS, SPtr.none]
    have hv : indS b (w.handles i) = 0 := by simp [indS, hblk]
    have hs0 : (w.blocks b).strong = ((cnt (indS b) w.handles w.nh : Nat) : Int) :=
      hw.hS b hb2
    show (w.blocks b).strong = ((cnt (indS b) (updFn w.handles i SPtr.none) w.nh : Nat) : Int)
    omega
  · intro b hb
    exact hw.hW b hb
  · intro b hb
    exact hw.hDel b hb
  · intro b hb
    exact hw.hDes b hb
  · intro k b hk hblk2
    have hk2 : k < w.nh := hk
    show b < w.nb
    by_cases hki : k = i
    · rw [show ({ w with handles := updFn w.handles i SPtr.none } : World).handles k
          = SPtr.none by rw [hki]; exact updFn_same _ _ _] at hblk2
      simp [SPtr.none] at hblk2
    · rw [show ({ w with handles := updFn w.handles i SPtr.none } : World).handles k
          = w.handles k from updFn_other _ _ _ _ hki] at hblk2
      exact hw.hHB k b hk2 hblk2
  · intro j b hj hblk2
    exact hw.hWB j b hj hblk2

/-- Destroying the handle at slot i that references block b0: the slot
dies and the block undergoes release.  This is the shared_state
destructor composed with state_base release. -/
theorem inv_dropSome (w : World) (hw : Inv w) (i b0 : Nat) (hi : i < w.nh)
    (hl : (w.handles i).live = true) (hblk : (w.handles i).blk = some b0) :
    Inv (({ w with handles := updFn w.handles i SPtr.none } : World).modBlock b0 Block.release) := by
  have hb0 : b0 < w.nb := hw.hHB i b0 hi hblk
  have hdead : ∀ b, indS b SPtr.none = 0 := fun b => by simp [indS, SPtr.none]
  have hown : indS b0 (w.handles i) = 1 := by simp [indS, hl, hblk]
  have hlt0 := cnt_updFn_lt (indS b0) w.handles w.nh i SPtr.none hi
  have hs0 : (w.blocks b0).strong = ((cnt (indS b0) w.handles w.nh : Nat) : Int) :=
    hw.hS b0 hb0
  have hspos : 0 < (w.blocks b0).strong := by
    have h1 : 1 ≤ cnt (indS b0) w.handles w.nh :=
      cnt_pos (indS b0) w.handles w.nh i hi (by omega)
    omega
  have hne : ¬ (w.blocks b0).strong = 0 := by omega
  have hW1 : (w.blocks b0).weak = ((weakRefs w b0 : Nat) : Int) + 1 := by
    have := hw.hW b0 hb0
    rw [if_neg hne] at this
    exact this
  have hDel0 : (w.blocks b0).deleterCalls = 0 := by
    have := hw.hDel b0 hb0
    rw [if_neg hne] at this
    exact this
  have hwne : ¬ (w.blocks b0).weak = 0 := by omega
  have hDes0 : (w.blocks b0).destroyCalls = 0 := by
    have := hw.hDes b0 hb0
    rw [if_neg hwne] at this
    exact this
  have hgb0 : (({ w with handles := updFn w.handles i SPtr.none } : World).modBlock b0 Block.release).blocks b0
      = Block.release (w.blocks b0) := updFn_same _ _ _
  refine ⟨?_, ?_, ?_, ?_, ?_, ?_⟩
  · intro b hb
    have hb2 : b < w.nb := hb
    by_cases hbb : b = b0
    · rw [hbb]
      simp only [hgb0, release_strong]
      have hsr : strongRefs (({ w with handles := updFn w.handles i SPtr.none } : World).modBlock b0 Block.release) b0
          = cnt (indS b0) (updFn w.handles i SPtr.none) w.nh := rfl
      rw [hsr]
      have hd0 := hdead b0
      omega
    · have hgb : (({ w with handles := updFn w.handles i SPtr.none } : World).modBlock b0 Block.release).blocks b
          = w.blocks b := updFn_other _ _ _ _ hbb
      simp only [hgb]
      have hsr : strongRefs (({ w with handles := updFn w.handles i SPtr.none } : World).modBlock b0 Block.release) b
          = cnt (indS b) (updFn w.handles i SPtr.none) w.nh := rfl
      rw [hsr]
      have hlt := cnt_updFn_lt (indS b) w.handles w.nh i SPtr.none hi
      have hvb : indS b (w.handles i) = 0 := by
        have hne2 : b0 ≠ b := fun h => hbb h.symm
        simp [indS, hblk, hne2]
      have hs1 : (w.blocks b).strong = ((cnt (indS b) w.handles w.nh : Nat) : Int) :=
        hw.hS b hb2
      have hd := hdead b
      omega
  · intro b hb
    have hb2 : b < w.nb := hb
    have hwr : ∀ bx, weakRefs (({ w with handles := updFn w.handles i SPtr.none } : World).modBlock b0 Block.release) bx
        = weakRefs w bx := fun bx => rfl
    by_cases hbb : b = b0
    · rw [hbb]
      simp only [hgb0, hwr, release_weak, release_strong]
      by_cases hc : (w.blocks b0).strong - 1 = 0
      · simp only [if_pos hc]
        omega
      · simp only [if_neg hc]
        omega
    · have hgb : (({ w with handles := updFn w.handles i SPtr.none } : World).modBlock b0 Block.release).blocks b
          = w.blocks b := updFn_other _ _ _ _ hbb
      simp only [hgb, hwr]
      exact hw.hW b hb2
  · intro b hb
    have hb2 : b < w.nb := hb
    by_cases hbb : b = b0
    · rw [hbb]
      simp only [hgb0, release_del, release_strong]
      by_cases hc : (w.blocks b0).strong - 1 = 0
      · simp only [if_pos hc]
        omega
      · simp only [if_neg hc]
        omega
    · have hgb : (({ w with handles := updFn w.handles i SPtr.none } : World).modBlock b0 Block.release).blocks b
          = w.blocks b := updFn_other _ _ _ _ hbb
      simp only [hgb]
      exact hw.hDel b hb2
  · intro b hb
    have hb2 : b < w.nb := hb
    by_cases hbb : b = b0
    · rw [hbb]
      simp only [hgb0, release_des, release_weak, release_strong]
      by_cases hc : (w.blocks b0).strong - 1 = 0
      · simp only [if_pos hc]
        by_cases hd : (w.blocks b0).weak - 1 = 0
        · simp only [if_pos hd]
          omega
        · simp only [if_neg hd]
          omega
      · simp only [if_neg hc]
        have hwne2 : ¬ (w.blocks b0).weak = 0 := hwne
        simp only [if_neg hwne2]
        exact hDes0
    · have hgb : (({ w with handles := updFn w.handles i SPtr.none } : World).modBlock b0 Block.release).blocks b
          = w.blocks b := updFn_other _ _ _ _ hbb
      simp only [hgb]
      exact hw.hDes b hb2
  · intro k b hk hblk2
    have hk2 : k < w.nh := hk
    show b < w.nb
    by_cases hki : k = i
    · rw [show (({ w with handles := updFn w.handles i SPtr.none } : World).modBlock b0 Block.release).handles k
          = SPtr.none by rw [hki]; exact updFn_same _ _ _] at hblk2
      simp [SPtr.none] at hblk2
    · rw [show (({ w with handles := updFn w.handles i SPtr.none } : World).modBlock b0 Block.release).handles k
          = w.handles k from updFn_other _ _ _ _ hki] at hblk2
      exact hw.hHB k b hk2 hblk2
  · intro j b hj hblk2
    exact hw.hWB j b hj hblk2

/-- Dropping a weak observer that references no block preserves the
invariant.  Modelled from the spec since class weak_ptr is absent from
the sources. -/
theorem inv_dropWeakNone (w : World) (hw : Inv w) (j : Nat) (hj : j < w.nw)
    (hblk : (w.weaks j).blk = Option.none) :
    Inv ({ w with weaks := updFn w.weaks j WPtr.none } : World) := by
  have hv : ∀ b, indW b (w.weaks j) = 0 := fun b => by simp [indW, hblk]
  have hd : ∀ b, indW b WPtr.none = 0 := fun b => by simp [indW, WPtr.none]
  refine ⟨?_, ?_, ?_, ?_, ?_, ?_⟩
  · intro b hb
    exact hw.hS b hb
  · intro b hb
    have hb2 : b < w.nb := hb
    have hlt := cnt_updFn_lt (indW b) w.weaks w.nw j WPtr.none hj
    have hw0 : (w.blocks b).weak = ((cnt (indW b) w.weaks w.nw : Nat) : Int)
        + (if (w.blocks b).strong = 0 then 0 else 1) := hw.hW b hb2
    have hvb := hv b
    have hdb := hd b
    show (w.blocks b).weak = ((cnt (indW b) (updFn w.weaks j WPtr.none) w.nw : Nat) : Int)
        + (if (w.blocks b).strong = 0 then 0 else 1)
    by_cases hz : (w.blocks b).strong = 0
    · rw [if_pos hz] at hw0 ⊢
      omega
    · rw [if_neg hz] at hw0 ⊢
      omega
  · intro b hb
    exact hw.hDel b hb
  · intro b hb
    exact hw.hDes b hb
  · intro k b hk hblk2
    exact hw.hHB k b hk hblk2
  · intro k b hk hblk2
    have hk2 : k < w.nw := hk
    show b < w.nb
    by_cases hkj : k = j
    · rw [show ({ w with weaks := updFn w.weaks j WPtr.none } : World).weaks k
          = WPtr.none by rw [hkj]; exact updFn_same _ _ _] at hblk2
      simp [WPtr.none] at hblk2
    · rw [show ({ w with weaks := updFn w.weaks j WPtr.none } : World).weaks k
          = w.weaks k from updFn_other _ _ _ _ hkj] at hblk2
      exact hw.hWB k b hk2 hblk2

/-- Dropping the weak observer at slot j that references block b0: the
slot dies and the block undergoes the weak release.  Modelled from the
spec since class weak_ptr is absent from the sources. -/
theorem inv_dropWeakSome (w : World) (hw : Inv w) (j b0 : Nat) (hj : j < w.nw)
    (hl : (w.weaks j).live = true) (hblk : (w.weaks j).blk = some b0) :
    Inv (({ w with weaks := updFn w.weaks j WPtr.none } : World).modBlock b0 Block.weakRelease) := by
  have hb0 : b0 < w.nb := hw.hWB j b0 hj hblk
  have hown : indW b0 (w.weaks j) = 1 := by simp [indW, hl, hblk]
  have hlt0 := cnt_updFn_lt (indW b0) w.weaks w.nw j WPtr.none hj
  have hd0 : indW b0 WPtr.none = 0 := by simp [indW, WPtr.none]
  have hW0 : (w.blocks b0).weak = ((cnt (indW b0) w.weaks w.nw : Nat) : Int)
      + (if (w.blocks b0).strong = 0 then 0 else 1) := hw.hW b0 hb0
  have hwpos : 0 < (w.blocks b0).weak := by
    have h1 : 1 ≤ cnt (indW b0) w.weaks w.nw :=
      cnt_pos (indW b0) w.weaks w.nw j hj (by omega)
    by_cases hz : (w.blocks b0).strong = 0
    · rw [if_pos hz] at hW0
      omega
    · rw [if_neg hz] at hW0
      omega
  have hwne : ¬ (w.blocks b0).weak = 0 := by omega
  have hDes0 : (w.blocks b0).destroyCalls = 0 := by
    have := hw.hDes b0 hb0
    rw [if_neg hwne] at this
    exact this
  have hgb0 : (({ w with weaks := updFn w.weaks j WPtr.none } : World).modBlock b0 Block.weakRelease).blocks b0
      = Block.weakRelease (w.blocks b0) := updFn_same _ _ _
  refine ⟨?_, ?_, ?_, ?_, ?_, ?_⟩
  · intro b hb
    have hb2 : b < w.nb := hb
    have hsr : strongRefs (({ w with weaks := updFn w.weaks j WPtr.none } : World).modBlock b0 Block.weakRelease) b
        = strongRefs w b := rfl
    by_cases hbb : b = b0
    · rw [hbb] at hsr ⊢
      simp only [hgb0, wrel_strong, hsr]
      exact hw.hS b0 hb0
    · have hgb : (({ w with weaks := updFn w.weaks j WPtr.none } : World).modBlock b0 Block.weakRelease).blocks b
          = w.blocks b := updFn_other _ _ _ _ hbb
      simp only [hgb, hsr]
      exact hw.hS b hb2
  · intro b hb
    have hb2 : b < w.nb := hb
    by_cases hbb : b = b0
    · rw [hbb]
      simp only [hgb0, wrel_weak, wrel_strong]
      have hwr : weakRefs (({ w with weaks := updFn w.weaks j WPtr.none } : World).modBlock b0 Block.weakRelease) b0
          = cnt (indW b0) (updFn w.weaks j WPtr.none) w.nw := rfl
      rw [hwr]
      by_cases hz : (w.blocks b0).strong = 0
      · rw [if_pos hz] at hW0 ⊢
        omega
      · rw [if_neg hz] at hW0 ⊢
        omega
    · have hgb : (({ w with weaks := updFn w.weaks j WPtr.none } : World).modBlock b0 Block.weakRelease).blocks b
          = w.blocks b := updFn_other _ _ _ _ hbb
      simp only [hgb]
      have hwr : weakRefs (({ w with weaks := updFn w.weaks j WPtr.none } : World).modBlock b0 Block.weakRelease) b
          = cnt (indW b) (updFn w.weaks j WPtr.none) w.nw := rfl
      rw [hwr]
      have hlt := cnt_updFn_lt (indW b) w.weaks w.nw j WPtr.none hj
      have hvb : indW b (w.weaks j) = 0 := by
        have hne2 : b0 ≠ b := fun h => hbb h.symm
        simp [indW, hblk, hne2]
      have hdb : indW b WPtr.none = 0 := by simp [indW, WPtr.none]
      have hw0 : (w.blocks b).weak = ((cnt (indW b) w.weaks w.nw : Nat) : Int)
          + (if (w.blocks b).strong = 0 then 0 else 1) := hw.hW b hb2
      by_cases hz : (w.blocks b).strong = 0
      · rw [if_pos hz] at hw0 ⊢
        omega
      · rw [if_neg hz] at hw0 ⊢
        omega
  · intro b hb
    have hb2 : b < w.nb := hb
    by_cases hbb : b = b0
    · rw [hbb]
      simp only [hgb0, wrel_del, wrel_strong]
      exact hw.hDel b0 hb0
    · have hgb : (({ w with weaks := updFn w.weaks j WPtr.none } : World).modBlock b0 Block.weakRelease).blocks b
          = w.blocks b := updFn_other _ _ _ _ hbb
      simp only [hgb]
      exact hw.hDel b hb2
  · intro b hb
    have hb2 : b < w.nb := hb
    by_cases hbb : b = b0
    · rw [hbb]
      simp only [hgb0, wrel_des, wrel_weak]
      by_cases hd : (w.blocks b0).weak - 1 = 0
      · simp only [if_pos hd]
        omega
      · simp only [if_neg hd]
        omega
    · have hgb : (({ w with weaks := updFn w.weaks j WPtr.none } : World).modBlock b0 Block.weakRelease).blocks b
          = w.blocks b := updFn_other _ _ _ _ hbb
      simp only [hgb]
      exact hw.hDes b hb2
  · intro k b hk hblk2
    exact hw.hHB k b hk hblk2
  · intro k b hk hblk2
    have hk2 : k < w.nw := hk
    show b < w.nb
    by_cases hkj : k = j
    · rw [show (({ w with weaks := updFn w.weaks j WPtr.none } : World).modBlock b0 Block.weakRelease).weaks k
          = WPtr.none by rw [hkj]; exact updFn_same _ _ _] at hblk2
      simp [WPtr.none] at hblk2
    · rw [show (({ w with weaks := updFn w.weaks j WPtr.none } : World).modBlock b0 Block.weakRelease).weaks k
          = w.weaks k from updFn_other _ _ _ _ hkj] at hblk2
      exact hw.hWB k b hk2 hblk2

/-- Every lifecycle step preserves the protocol invariant. -/
theorem inv_step (w : World) (hw : Inv w) (op : Op) : Inv (step w op) := by
  cases op with
  | mkDefault => exact inv_pushHandle_none w hw Option.none
  | mkOwning p => exact inv_newBlock w hw p
  | copy i =>
      by_cases hg : i < w.nh ∧ (w.handles i).live = true
      · cases hblk : (w.handles i).blk with
        | some b0 =>
            have hb0 : b0 < w.nb := hw.hHB i b0 hg.1 hblk
            have h1 : 1 ≤ indS b0 (w.handles i) := by simp [indS, hg.2, hblk]
            have hs : (w.blocks b0).strong = ((cnt (indS b0) w.handles w.nh : Nat) : Int) :=
              hw.hS b0 hb0
            have h2 : 1 ≤ cnt (indS b0) w.handles w.nh :=
              cnt_pos (indS b0) w.handles w.nh i hg.1 h1
            have hpos : 0 < (w.blocks b0).strong := by omega
            have hres := inv_strongInto w hw b0 ((w.handles i).ptr) hb0 hpos
            simp only [step, if_pos hg, hblk]
            exact hres
        | none =>
            have hres := inv_pushHandle_none w hw ((w.handles i).ptr)
            simp only [step, if_pos hg, hblk]
            exact hres
      · simp only [step, if_neg hg]
        exact hw
  | mv i =>
      by_cases hg : i < w.nh ∧ (w.handles i).live = true
      · have hres := inv_mv w hw i hg.1 hg.2
        simp only [step, if_pos hg]
        exact hres
      · simp only [step, if_neg hg]
        exact hw
  | aliasc i q =>
      by_cases hg : i < w.nh ∧ (w.handles i).live = true
      · cases hblk : (w.handles i).blk with
        | some b0 =>
            have hb0 : b0 < w.nb := hw.hHB i b0 hg.1 hblk
            have h1 : 1 ≤ indS b0 (w.handles i) := by simp [indS, hg.2, hblk]
            have hs : (w.blocks b0).strong = ((cnt (indS b0) w.handles w.nh : Nat) : Int) :=
              hw.hS b0 hb0
            have h2 : 1 ≤ cnt (indS b0) w.handles w.nh :=
              cnt_pos (indS b0) w.handles w.nh i hg.1 h1
            have hpos : 0 < (w.blocks b0).strong := by omega
            have hres := inv_strongInto w hw b0 q hb0 hpos
            simp only [step, if_pos hg, hblk]
            exact hres
        | none =>
            have hres := inv_pushHandle_none w hw q
            simp only [step, if_pos hg, hblk]
            exact hres
      · simp only [step, if_neg hg]
        exact hw
  | drop i =>
      by_cases hg : i < w.nh ∧ (w.handles i).live = true
      · cases hblk : (w.handles i).blk with
        | some b0 =>
            have hres := inv_dropSome w hw i b0 hg.1 hg.2 hblk
            simp only [step, if_pos hg, hblk]
            exact hres
        | none =>
            have hres := inv_dropNone w hw i hg.1 hg.2 hblk
            simp only [step, if_pos hg, hblk]
            exact hres
      · simp only [step, if_neg hg]
        exact hw
  | mkWeak i =>
      by_cases hg : i < w.nh ∧ (w.handles i).live = true
      · cases hblk : (w.handles i).blk with
        | some b0 =>
            have hb0 : b0 < w.nb := hw.hHB i b0 hg.1 hblk
            have h1 : 1 ≤ indS b0 (w.handles i) := by simp [indS, hg.2, hblk]
            have hs : (w.blocks b0).strong = ((cnt (indS b0) w.handles w.nh : Nat) : Int) :=
              hw.hS b0 hb0
            have h2 : 1 ≤ cnt (indS b0) w.handles w.nh :=
              cnt_pos (indS b0) w.handles w.nh i hg.1 h1
            have hz : ¬ (w.blocks b0).strong = 0 := by omega
            have hW0 := hw.hW b0 hb0
            rw [if_neg hz] at hW0
            have hpos : 0 < (w.blocks b0).weak := by omega
            have hres := inv_weakInto w hw b0 ((w.handles i).ptr) hb0 hpos
            simp only [step, if_pos hg, hblk]
            exact hres
        | none =>
            have hres := inv_pushWeak_none w hw ((w.handles i).ptr)
            simp only [step, if_pos hg, hblk]
            exact hres
      · simp only [step, if_neg hg]
        exact hw
  | copyWeak j =>
      by_cases hg : j < w.nw ∧ (w.weaks j).live = true
      · cases hblk : (w.weaks j).blk with
        | some b0 =>
            have hb0 : b0 < w.nb := hw.hWB j b0 hg.1 hblk
            have h1 : 1 ≤ indW b0 (w.weaks j) := by simp [indW, hg.2, hblk]
            have h2 : 1 ≤ cnt (indW b0) w.weaks w.nw :=
              cnt_pos (indW b0) w.weaks w.nw j hg.1 h1
            have hW0 : (w.blocks b0).weak = ((cnt (indW b0) w.weaks w.nw : Nat) : Int)
                + (if (w.blocks b0).strong = 0 then 0 else 1) := hw.hW b0 hb0
            have hpos : 0 < (w.blocks b0).weak := by
              by_cases hz : (w.blocks b0).strong = 0
              · rw [if_pos hz] at hW0
                omega
              · rw [if_neg hz] at hW0
                omega
            have hres := inv_weakInto w hw b0 ((w.weaks j).ptr) hb0 hpos
            simp only [step, if_pos hg, hblk]
            exact hres
        | none =>
            have hres := inv_pushWeak_none w hw ((w.weaks j).ptr)
            simp only [step, if_pos hg, hblk]
            exact hres
      · simp only [step, if_neg hg]
        exact hw
  | dropWeak j =>
      by_cases hg : j < w.nw ∧ (w.weaks j).live = true
      · cases hblk : (w.weaks j).blk with
        | some b0 =>
            have hres := inv_dropWeakSome w hw j b0 hg.1 hg.2 hblk
            simp only [step, if_pos hg, hblk]
            exact hres
        | none =>
            have hres := inv_dropWeakNone w hw j hg.1 hblk
            simp only [step, if_pos hg, hblk]
            exact hres
      · simp only [step, if_neg hg]
        exact hw

/-- The empty world satisfies the invariant. -/
theorem inv_empty : Inv World.empty := by
  refine ⟨?_, ?_, ?_, ?_, ?_, ?_⟩
  · intro b hb
    exact absurd hb (Nat.not_lt_zero b)
  · intro b hb
    exact absurd hb (Nat.not_lt_zero b)
  · intro b hb
    exact absurd hb (Nat.not_lt_zero b)
  · intro b hb
    exact absurd hb (Nat.not_lt_zero b)
  · intro i b hi hblk
    simp [World.empty, SPtr.none] at hblk
  · intro j b hj hblk
    simp [World.empty, WPtr.none] at hblk

theorem inv_foldl (ops : List Op) (w : World) (hw : Inv w) :
    Inv (ops.foldl step w) := by
  induction ops generalizing w with
  | nil => exact hw
  | cons op rest ih => exact ih (step w op) (inv_step w hw op)

/-- Every world reachable by a sequence of lifecycle operations
satisfies the protocol invariant. -/
theorem inv_run (ops : List Op) : Inv (run ops) :=
  inv_foldl ops World.empty inv_empty

/-- Claim C1: for every sequence of lifecycle operations (owning and
default construction, copy, move, aliasing, destruction of shared_ptr
handles, plus creation, copy and destruction of weak observers), every
control block has its deleter invoked at most once and its storage freed
at most once; the deleter has run exactly once precisely when
shared_counter_ has reached 0 (the decrement in release that observes 0,
lines 71 and 72), the storage has been freed exactly once precisely when
weak_counter_ has reached 0 (the decrement that observes 0, lines 73 and
74), and the storage is never freed before the deleter has run. -/
theorem C1_deleter_once_destroy_once_ordered (ops : List Op) (b : Nat)
    (hb : b < (run ops).nb) :
    ((run ops).blocks b).deleterCalls ≤ 1 ∧
    ((run ops).blocks b).destroyCalls ≤ 1 ∧
    (((run ops).blocks b).deleterCalls = 1 ↔ ((run ops).blocks b).strong = 0) ∧
    (((run ops).blocks b).destroyCalls = 1 ↔ ((run ops).blocks b).weak = 0) ∧
    (((run ops).blocks b).destroyCalls = 1 → ((run ops).blocks b).deleterCalls = 1) := by
  have hw := inv_run ops
  have hDel := hw.hDel b hb
  have hDes := hw.hDes b hb
  have hW := hw.hW b hb
  by_cases hz : ((run ops).blocks b).strong = 0
  · rw [if_pos hz] at hDel hW
    by_cases hzw : ((run ops).blocks b).weak = 0
    · rw [if_pos hzw] at hDes
      refine ⟨by omega, by omega, by omega, by omega, by omega⟩
    · rw [if_neg hzw] at hDes
      refine ⟨by omega, by omega, by omega, by omega, by omega⟩
  · rw [if_neg hz] at hDel hW
    by_cases hzw : ((run ops).blocks b).weak = 0
    · rw [if_pos hzw] at hDes
      refine ⟨by omega, by omega, by omega, by omega, by omega⟩
    · rw [if_neg hzw] at hDes
      refine ⟨by omega, by omega, by omega, by omega, by omega⟩

theorem C1_witness :
    0 < (run [Op.mkOwning (some 5), Op.copy 0, Op.mkWeak 0, Op.drop 0,
        Op.drop 1, Op.dropWeak 0]).nb ∧
    ((run [Op.mkOwning (some 5), Op.copy 0, Op.mkWeak 0, Op.drop 0,
        Op.drop 1, Op.dropWeak 0]).blocks 0).deleterCalls ≤ 1 ∧
    ((run [Op.mkOwning (some 5), Op.copy 0, Op.mkWeak 0, Op.drop 0,
        Op.drop 1, Op.dropWeak 0]).blocks 0).destroyCalls ≤ 1 ∧
    (((run [Op.mkOwning (some 5), Op.copy 0, Op.mkWeak 0, Op.drop 0,
        Op.drop 1, Op.dropWeak 0]).blocks 0).deleterCalls = 1 ↔
      ((run [Op.mkOwning (some 5), Op.copy 0, Op.mkWeak 0, Op.drop 0,
        Op.drop 1, Op.dropWeak 0]).blocks 0).strong = 0) ∧
    (((run [Op.mkOwning (some 5), Op.copy 0, Op.mkWeak 0, Op.drop 0,
        Op.drop 1, Op.dropWeak 0]).blocks 0).destroyCalls = 1 ↔
      ((run [Op.mkOwning (some 5), Op.copy 0, Op.mkWeak 0, Op.drop 0,
        Op.drop 1, Op.dropWeak 0]).blocks 0).weak = 0) ∧
    (((run [Op.mkOwning (some 5), Op.copy 0, Op.mkWeak 0, Op.drop 0,
        Op.drop 1, Op.dropWeak 0]).blocks 0).destroyCalls = 1 →
      ((run [Op.mkOwning (some 5), Op.copy 0, Op.mkWeak 0, Op.drop 0,
        Op.drop 1, Op.dropWeak 0]).blocks 0).deleterCalls = 1) :=
  ⟨by decide, C1_deleter_once_destroy_once_ordered
    [Op.mkOwning (some 5), Op.copy 0, Op.mkWeak 0, Op.drop 0,
      Op.drop 1, Op.dropWeak 0] 0 (by decide)⟩

/-- Claim C2: for every pointer p, null included, an owning construction
makes a fresh control block whose shared_counter_ and weak_counter_ are
both 1 with no deleter or destroy event, and the new handle reports
use_count 1 and get p while referencing that block. -/
theorem C2_owning_ctor_fresh_block (w : World) (p : Ptr) :
    ((step w (Op.mkOwning p)).blocks w.nb).strong = 1 ∧
    ((step w (Op.mkOwning p)).blocks w.nb).weak = 1 ∧
    ((step w (Op.mkOwning p)).blocks w.nb).deleterCalls = 0 ∧
    ((step w (Op.mkOwning p)).blocks w.nb).destroyCalls = 0 ∧
    ((step w (Op.mkOwning p)).handles w.nh).blk = some w.nb ∧
    (step w (Op.mkOwning p)).useCount w.nh = 1 ∧
    (step w (Op.mkOwning p)).getP w.nh = p := by
  have hbk : (step w (Op.mkOwning p)).blocks w.nb = Block.fresh := updFn_same _ _ _
  have hh : (step w (Op.mkOwning p)).handles w.nh
      = { ptr := p, blk := some w.nb, live := true } := updFn_same _ _ _
  refine ⟨?_, ?_, ?_, ?_, ?_, ?_, ?_⟩
  · rw [hbk]
    rfl
  · rw [hbk]
    rfl
  · rw [hbk]
    rfl
  · rw [hbk]
    rfl
  · rw [hh]
  · simp [World.useCount, hh, hbk, Block.fresh]
  · simp [World.getP, hh]

/-- Claim C3 counterexample: copying a handle that owns no control block
does not increment use_count by 1; the default-constructed handle and
its copy both report use_count 0, as the source test copyConstructorEmpty
also expects. -/
theorem C3_counterexample_empty_copy :
    ¬ ((run [Op.mkDefault, Op.copy 0]).useCount 1
        = (run [Op.mkDefault]).useCount 0 + 1) := by
  decide

/-- Claim C3 (amended): for every live handle that owns a control block,
copy construction increments use_count by exactly 1 and the original and
the copy report the same value; copying a live handle with no block
leaves both at use_count 0; move construction always leaves the source
with use_count 0, a null pointer and a false boolean conversion, and the
destination holds the prior pointer and prior count of the source. -/
theorem C3_copy_increments_move_steals (w : World) (i : Nat)
    (hi : i < w.nh) (hl : (w.handles i).live = true) :
    ((∀ b, (w.handles i).blk = some b →
        (step w (Op.copy i)).useCount w.nh = w.useCount i + 1 ∧
        (step w (Op.copy i)).useCount i = (step w (Op.copy i)).useCount w.nh) ∧
      ((w.handles i).blk = Option.none →
        (step w (Op.copy i)).useCount w.nh = 0 ∧
        (step w (Op.copy i)).useCount i = 0)) ∧
    ((step w (Op.mv i)).useCount i = 0 ∧
      (step w (Op.mv i)).getP i = Option.none ∧
      (step w (Op.mv i)).toB i = false ∧
      (step w (Op.mv i)).getP w.nh = w.getP i ∧
      (step w (Op.mv i)).useCount w.nh = w.useCount i) := by
  have hg : i < w.nh ∧ (w.handles i).live = true := ⟨hi, hl⟩
  have hne : ¬ i = w.nh := by omega
  refine ⟨⟨?_, ?_⟩, ?_⟩
  · intro b hblk
    constructor
    · simp [step, if_pos hg, hblk, World.useCount, World.pushHandle,
        World.modBlock, updFn, Block.incStrong]
    · simp [step, if_pos hg, hblk, World.useCount, World.pushHandle,
        World.modBlock, updFn, hne, Block.incStrong]
  · intro hblk
    constructor
    · simp [step, if_pos hg, hblk, World.useCount, World.pushHandle, updFn]
    · simp [step, if_pos hg, hblk, World.useCount, World.pushHandle, updFn, hne]
  · refine ⟨?_, ?_, ?_, ?_, ?_⟩
    · simp [step, if_pos hg, World.useCount, World.pushHandle, updFn, hne]
    · simp [step, if_pos hg, World.getP, World.pushHandle, updFn, hne]
    · simp [step, if_pos hg, World.toB, World.pushHandle, updFn, hne]
    · simp [step, if_pos hg, World.getP, World.pushHandle, updFn]
    · cases hbk : (w.handles i).blk with
      | some b =>
          simp [step, if_pos hg, World.useCount, World.pushHandle, updFn, hbk]
      | none =>
          simp [step, if_pos hg, World.useCount, World.pushHandle, updFn, hbk]

theorem C3_witness :
    (0 < (run [Op.mkOwning (some 4)]).nh ∧
      ((run [Op.mkOwning (some 4)]).handles 0).live = true ∧
      ((run [Op.mkOwning (some 4)]).handles 0).blk = some 0) ∧
    (step (run [Op.mkOwning (some 4)]) (Op.copy 0)).useCount 1
      = (run [Op.mkOwning (some 4)]).useCount 0 + 1 :=
  ⟨⟨by decide, by decide, by decide⟩,
    ((C3_copy_increments_move_steals (run [Op.mkOwning (some 4)]) 0
      (by decide) (by decide)).1.1 0 (by decide)).1⟩

/-- Claim C4: aliasing construction from a live owner yields a handle
exposing exactly the supplied pointer q whose use_count equals the
owners use_count; when the owner references a block the alias shares
that block and its shared_counter_ has grown by one, and when the owner
owns no block the alias owns no block and reports use_count 0 while
still exposing q. -/
theorem C4_aliasing_ctor (w : World) (i : Nat) (q : Ptr)
    (hi : i < w.nh) (hl : (w.handles i).live = true) :
    (step w (Op.aliasc i q)).getP w.nh = q ∧
    (step w (Op.aliasc i q)).useCount w.nh = (step w (Op.aliasc i q)).useCount i ∧
    (∀ b, (w.handles i).blk = some b →
      ((step w (Op.aliasc i q)).handles w.nh).blk = some b ∧
      ((step w (Op.aliasc i q)).blocks b).strong = (w.blocks b).strong + 1) ∧
    ((w.handles i).blk = Option.none →
      ((step w (Op.aliasc i q)).handles w.nh).blk = Option.none ∧
      (step w (Op.aliasc i q)).useCount w.nh = 0) := by
  have hg : i < w.nh ∧ (w.handles i).live = true := ⟨hi, hl⟩
  have hne : ¬ i = w.nh := by omega
  refine ⟨?_, ?_, ?_, ?_⟩
  · cases hbk : (w.handles i).blk with
    | some b =>
        simp [step, if_pos hg, hbk, World.getP, World.pushHandle,
          World.modBlock, updFn]
    | none => simp [step, if_pos hg, hbk, World.getP, World.pushHandle, updFn]
  · cases hbk : (w.handles i).blk with
    | some b =>
        simp [step, if_pos hg, hbk, World.useCount, World.pushHandle,
          World.modBlock, updFn, hne]
    | none =>
        simp [step, if_pos hg, hbk, World.useCount, World.pushHandle, updFn, hne]
  · intro b hbk
    constructor
    · simp [step, if_pos hg, hbk, World.pushHandle, World.modBlock, updFn]
    · simp [step, if_pos hg, hbk, World.pushHandle, World.modBlock, updFn,
        Block.incStrong]
  · intro hbk
    constructor
    · simp [step, if_pos hg, hbk, World.pushHandle, updFn]
    · simp [step, if_pos hg, hbk, World.useCount, World.pushHandle, updFn]

theorem C4_witness :
    (0 < (run [Op.mkOwning (some 4), Op.copy 0]).nh ∧
      ((run [Op.mkOwning (some 4), Op.copy 0]).handles 0).live = true) ∧
    (step (run [Op.mkOwning (some 4), Op.copy 0]) (Op.aliasc 0 (some 9))).getP 2 = some 9 ∧
    (step (run [Op.mkOwning (some 4), Op.copy 0]) (Op.aliasc 0 (some 9))).useCount 2
      = (step (run [Op.mkOwning (some 4), Op.copy 0]) (Op.aliasc 0 (some 9))).useCount 0 :=
  ⟨⟨by decide, by decide⟩,
    (C4_aliasing_ctor (run [Op.mkOwning (some 4), Op.copy 0]) 0 (some 9)
      (by decide) (by decide)).1,
    (C4_aliasing_ctor (run [Op.mkOwning (some 4), Op.copy 0]) 0 (some 9)
      (by decide) (by decide)).2.1⟩

/-- Events of one shared_state owning-construction attempt: whether the
constructor completed, how many units of storage for the control block
were allocated and deallocated, how many times the rollback handler
invoked the supplied deleter on the adopted pointer, and how many times
it ran a plain delete on it. -/
structure CtorEvents where
  success : Bool
  blockAllocs : Nat
  blockDeallocs : Nat
  deleterOnP : Nat
  plainDeleteP : Nat
deriving DecidableEq

/-- Translation of shared_state(Ptr p) (lines 112 to 119): base_ is
initialized by a plain new of a state object inside a function try block
whose handler runs delete p and rethrows.  The state constructor is
noexcept (line 95), so the only failure point is the allocation done by
new, injected here as the flag newFails; when new itself fails it has
allocated nothing. -/
def sharedStateCtorP (newFails : Bool) : CtorEvents :=
  if newFails then
    { success := false, blockAllocs := 0, blockDeallocs := 0,
      deleterOnP := 0, plainDeleteP := 1 }
  else
    { success := true, blockAllocs := 1, blockDeallocs := 0,
      deleterOnP := 0, plainDeleteP := 0 }

/-- Translation of shared_state(Ptr p, D d) (lines 121 to 128): as the
previous constructor but the handler invokes d(p). -/
def sharedStateCtorPD (newFails : Bool) : CtorEvents :=
  if newFails then
    { success := false, blockAllocs := 0, blockDeallocs := 0,
      deleterOnP := 1, plainDeleteP := 0 }
  else
    { success := true, blockAllocs := 1, blockDeallocs := 0,
      deleterOnP := 0, plainDeleteP := 0 }

/-- Translation of alloc_guard (lines 11 to 31): armed over a pointer on
construction, its destructor deallocates exactly when still armed, and
release disarms it. -/
structure AllocGuard where
  armed : Bool
deriving DecidableEq

def AllocGuard.start : AllocGuard := { armed := true }

def AllocGuard.disarm : AllocGuard → AllocGuard := fun _ => { armed := false }

/-- The deallocations performed by the guard destructor on scope
exit. -/
def AllocGuard.onExit (g : AllocGuard) (deallocs : Nat) : Nat :=
  if g.armed then deallocs + 1 else deallocs

/-- Translation of shared_state(Ptr p, D d, A a) (lines 130 to 146):
allocate one unit of block storage through the rebound allocator, arm an
alloc_guard over it, placement-construct the state through the
allocator, disarm the guard with release and commit base_.  The function
try handler invokes d(p) and rethrows.  allocFails injects a failure of
allocate (nothing allocated), constructFails a failure of construct,
after which the armed guard deallocates during unwinding before the
handler runs. -/
def sharedStateCtorPDA (allocFails constructFails : Bool) : CtorEvents :=
  if allocFails then
    { success := false, blockAllocs := 0, blockDeallocs := 0,
      deleterOnP := 1, plainDeleteP := 0 }
  else
    let g := AllocGuard.start
    if constructFails then
      { success := false, blockAllocs := 1, blockDeallocs := g.onExit 0,
        deleterOnP := 1, plainDeleteP := 0 }
    else
      { success := true, blockAllocs := 1,
        blockDeallocs := (AllocGuard.disarm g).onExit 0,
        deleterOnP := 0, plainDeleteP := 0 }

/-- Claim C6: on every failing exit path of the three owning
constructors the adopted pointer is passed to the deleter (or to delete
for the default constructor) exactly once and every unit of storage
allocated for the block has been deallocated; on the successful path of
the allocator constructor the guard has been disarmed, so the storage
stays allocated and the deleter is not invoked. -/
theorem C6_ctor_rollback_no_leak (f g : Bool) :
    ((sharedStateCtorP f).success = false →
        (sharedStateCtorP f).plainDeleteP = 1 ∧ (sharedStateCtorP f).deleterOnP = 0 ∧
        (sharedStateCtorP f).blockAllocs = (sharedStateCtorP f).blockDeallocs) ∧
    ((sharedStateCtorPD f).success = false →
        (sharedStateCtorPD f).deleterOnP = 1 ∧
        (sharedStateCtorPD f).blockAllocs = (sharedStateCtorPD f).blockDeallocs) ∧
    ((sharedStateCtorPDA f g).success = false →
        (sharedStateCtorPDA f g).deleterOnP = 1 ∧
        (sharedStateCtorPDA f g).blockAllocs = (sharedStateCtorPDA f g).blockDeallocs) ∧
    ((sharedStateCtorPDA f g).success = true →
        (sharedStateCtorPDA f g).deleterOnP = 0 ∧
        (sharedStateCtorPDA f g).blockDeallocs = 0 ∧
        (sharedStateCtorPDA f g).blockAllocs = 1) := by
  cases f <;> cases g <;> decide

theorem C6_witness :
    (sharedStateCtorPDA false true).success = false ∧
    (sharedStateCtorPDA false true).deleterOnP = 1 ∧
    (sharedStateCtorPDA false true).blockAllocs
      = (sharedStateCtorPDA false true).blockDeallocs :=
  ⟨by decide, (C6_ctor_rollback_no_leak false true).2.2.1 (by decide)⟩

/-- Modelled from the spec: weak_ptr expired is true iff the observer
holds no block or the strongCount of its block is 0, read at call time
(spec section 4.4); class weak_ptr is absent from the sources. -/
def World.wExpired (w : World) (j : Nat) : Bool :=
  match (w.weaks j).blk with
  | Option.none => true
  | some b => decide ((w.blocks b).strong = 0)

/-- Modelled from the spec: weak_ptr use_count mirrors the strongCount
of the observed block and is 0 without a block (spec section 4.4); class
weak_ptr is absent from the sources. -/
def World.wUseCount (w : World) (j : Nat) : Int :=
  match (w.weaks j).blk with
  | Option.none => 0
  | some b => (w.blocks b).strong

/-- Translation of the promotion constructor of shared_ptr from a
weak_ptr (lines 304 to 311), composed with the spec-modelled weak_ptr.
The member initializers run first: ptr_ copies the exposed pointer and
state_ copies the block reference of the observer as a strong reference,
incrementing shared_counter_ when a block exists (the shared_state copy
constructor, lines 148 to 153).  Only then does the body evaluate the
expiry of the observer and throw std::bad_weak_ptr when it holds, in
which case stack unwinding destroys the already initialized state_
member (lines 160 to 165), running state_base release.  The Bool of the
result records whether the exception escaped. -/
def stepFromWeak (w : World) (j : Nat) : World × Bool :=
  if j < w.nw ∧ (w.weaks j).live = true then
    match (w.weaks j).blk with
    | some b =>
        let w1 := w.modBlock b Block.incStrong
        if w1.wExpired j then
          (w1.modBlock b Block.release, true)
        else
          (w1.pushHandle { ptr := (w.weaks j).ptr, blk := some b, live := true }, false)
    | Option.none =>
        if w.wExpired j then
          (w, true)
        else
          (w.pushHandle { ptr := (w.weaks j).ptr, blk := Option.none, live := true }, false)
  else (w, false)

theorem Block.eq_of_fields (X Y : Block) (h1 : X.strong = Y.strong)
    (h2 : X.weak = Y.weak) (h3 : X.deleterCalls = Y.deleterCalls)
    (h4 : X.destroyCalls = Y.destroyCalls) : X = Y := by
  cases X
  cases Y
  simp_all

/-- Claim C5: promotion of an expired observer does not throw.  After
the only strong owner of the block is dropped, the deleter having run
once, constructing a shared_ptr from the still live weak observer
returns normally (no std::bad_weak_ptr): the member initializers
resurrect shared_counter_ from 0 to 1 before the body reads the expiry,
so the test sees a live block.  Dropping the handle so obtained then
runs the deleter a second time on the already deleted pointee. -/
theorem C5_expired_promotion_does_not_throw :
    (stepFromWeak (run [Op.mkOwning (some 7), Op.mkWeak 0, Op.drop 0]) 0).2 = false ∧
    ((run [Op.mkOwning (some 7), Op.mkWeak 0, Op.drop 0]).blocks 0).strong = 0 ∧
    ((run [Op.mkOwning (some 7), Op.mkWeak 0, Op.drop 0]).blocks 0).deleterCalls = 1 ∧
    ((step (stepFromWeak (run [Op.mkOwning (some 7), Op.mkWeak 0, Op.drop 0]) 0).1
        (Op.drop 1)).blocks 0).deleterCalls = 2 := by
  decide

/-- Claim C10: whenever the promotion constructor does raise the
expired-observer exception, the attempt leaves the whole world
untouched: every control block keeps its counters and its event
counters, and no handle or observer slot changes. -/
theorem C10_failed_promotion_is_atomic (w : World) (j : Nat)
    (hthrow : (stepFromWeak w j).2 = true) :
    (∀ b, ((stepFromWeak w j).1).blocks b = w.blocks b) ∧
    ((stepFromWeak w j).1).nb = w.nb ∧
    ((stepFromWeak w j).1).nh = w.nh ∧
    (∀ i, ((stepFromWeak w j).1).handles i = w.handles i) ∧
    ((stepFromWeak w j).1).nw = w.nw ∧
    (∀ k, ((stepFromWeak w j).1).weaks k = w.weaks k) := by
  by_cases hg : j < w.nw ∧ (w.weaks j).live = true
  · cases hblk : (w.weaks j).blk with
    | some b =>
        by_cases hex : ((w.modBlock b Block.incStrong).wExpired j) = true
        · have hres : stepFromWeak w j
              = ((w.modBlock b Block.incStrong).modBlock b Block.release, true) := by
            simp only [stepFromWeak, hblk, if_pos hg, if_pos hex]
          have hex2 : ((w.modBlock b Block.incStrong).blocks b).strong = 0 := by
            have h := hex
            simp only [World.wExpired, weaks_modBlock, hblk,
              decide_eq_true_eq] at h
            exact h
          have hstrong : (w.blocks b).strong = -1 := by
            rw [blocks_modBlock_same] at hex2
            simp only [Block.incStrong] at hex2
            omega
          have hc : ¬ ((Block.incStrong (w.blocks b)).strong - 1 = 0) := by
            simp only [Block.incStrong]
            omega
          have hblocks : ∀ bx, (((w.modBlock b Block.incStrong).modBlock b
              Block.release).blocks bx) = w.blocks bx := by
            intro bx
            by_cases hbb : bx = b
            · rw [hbb, blocks_modBlock_same, blocks_modBlock_same]
              apply Block.eq_of_fields
              · rw [release_strong]
                simp only [Block.incStrong]
                omega
              · rw [release_weak, if_neg hc]
                simp [Block.incStrong]
              · rw [release_del, if_neg hc]
                simp [Block.incStrong]
              · rw [release_des, if_neg hc]
                simp [Block.incStrong]
            · rw [blocks_modBlock_other _ _ _ _ hbb,
                blocks_modBlock_other _ _ _ _ hbb]
          rw [hres]
          exact ⟨hblocks, rfl, rfl, fun i => rfl, rfl, fun k => rfl⟩
        · have hres : stepFromWeak w j
              = ((w.modBlock b Block.incStrong).pushHandle
                  { ptr := (w.weaks j).ptr, blk := some b, live := true }, false) := by
            simp only [stepFromWeak, hblk, if_pos hg, if_neg hex]
          rw [hres] at hthrow
          simp at hthrow
    | none =>
        have hex : w.wExpired j = true := by
          simp [World.wExpired, hblk]
        have hres : stepFromWeak w j = (w, true) := by
          simp only [stepFromWeak, hblk, if_pos hg, if_pos hex]
        rw [hres]
        exact ⟨fun b => rfl, rfl, rfl, fun i => rfl, rfl, fun k => rfl⟩
  · have hres : stepFromWeak w j = (w, false) := by
      simp only [stepFromWeak, if_neg hg]
    rw [hres] at hthrow
    simp at hthrow

theorem C10_witness :
    (stepFromWeak (run [Op.mkDefault, Op.mkWeak 0]) 0).2 = true ∧
    ((stepFromWeak (run [Op.mkDefault, Op.mkWeak 0]) 0).1).blocks 0
      = (run [Op.mkDefault, Op.mkWeak 0]).blocks 0 :=
  ⟨by decide,
    (C10_failed_promotion_is_atomic (run [Op.mkDefault, Op.mkWeak 0]) 0
      (by decide)).1 0⟩

/-- Claim C9: a weak observer holding a block reports that blocks
strongCount through use_count and is expired exactly when that
strongCount is 0; an observer with no block reports use_count 0 and is
expired.  Creating a weak observer never changes any blocks
strongCount, and the observer created from a live handle reports the
same use_count as that handle.  All weak_ptr behaviour is modelled from
the spec because class weak_ptr is absent from the sources. -/
theorem C9_weak_use_count_and_expired (w : World) (j : Nat) :
    (∀ b, (w.weaks j).blk = some b →
        w.wUseCount j = (w.blocks b).strong ∧
        (w.wExpired j = true ↔ (w.blocks b).strong = 0)) ∧
    ((w.weaks j).blk = Option.none →
        w.wUseCount j = 0 ∧ w.wExpired j = true) ∧
    (∀ i b, ((step w (Op.mkWeak i)).blocks b).strong = (w.blocks b).strong) ∧
    (∀ i, i < w.nh → (w.handles i).live = true →
        (step w (Op.mkWeak i)).wUseCount w.nw = w.useCount i) := by
  refine ⟨?_, ?_, ?_, ?_⟩
  · intro b hblk
    constructor
    · simp [World.wUseCount, hblk]
    · simp [World.wExpired, hblk]
  · intro hblk
    constructor
    · simp [World.wUseCount, hblk]
    · simp [World.wExpired, hblk]
  · intro i b
    by_cases hg : i < w.nh ∧ (w.handles i).live = true
    · cases hbk : (w.handles i).blk with
      | some b0 =>
          by_cases hbb : b = b0
          · subst hbb
            simp [step, if_pos hg, hbk, World.modBlock, World.pushWeak,
              updFn, Block.incWeak]
          · simp [step, if_pos hg, hbk, World.modBlock, World.pushWeak,
              updFn, hbb, Block.incWeak]
      | none =>
          simp [step, if_pos hg, hbk, World.pushWeak]
    · simp [step, if_neg hg]
  · intro i hi hl
    have hg : i < w.nh ∧ (w.handles i).live = true := ⟨hi, hl⟩
    cases hbk : (w.handles i).blk with
    | some b0 =>
        simp [step, if_pos hg, hbk, World.wUseCount, World.useCount,
          World.modBlock, World.pushWeak, updFn, Block.incWeak]
    | none =>
        simp [step, if_pos hg, hbk, World.wUseCount, World.useCount,
          World.pushWeak, updFn]

theorem C9_witness :
    ((run [Op.mkOwning (some 3), Op.mkWeak 0]).weaks 0).blk = some 0 ∧
    (run [Op.mkOwning (some 3), Op.mkWeak 0]).wUseCount 0
      = ((run [Op.mkOwning (some 3), Op.mkWeak 0]).blocks 0).strong :=
  ⟨by decide,
    ((C9_weak_use_count_and_expired (run [Op.mkOwning (some 3), Op.mkWeak 0]) 0).1
      0 (by decide)).1⟩

/-- The memberwise assignment that the defaulted copy assignment
operator of shared_ptr (line 337, equals default) requests: copy ptr_
and copy the base_ field of the shared_state member, with no reference
count traffic and no release of the previously held state.
shared_state itself declares no assignment operator (lines 107 to 168);
because its user declared move constructor deletes its implicit copy
assignment, C++ in fact defines the defaulted operator of shared_ptr as
deleted, and a call to it does not compile (g++ reports use of deleted
function).  This function records the memberwise semantics that the
equals default declaration asks for, so that its divergence from the
copy constructor semantics can be exhibited. -/
def stepDefaultAssign (w : World) (i j : Nat) : World :=
  if i < w.nh ∧ j < w.nh ∧ (w.handles i).live = true ∧ (w.handles j).live = true then
    let v : SPtr := { ptr := (w.handles j).ptr, blk := (w.handles j).blk, live := true }
    { w with handles := updFn w.handles i v }
  else w

/-- Claim C8: the memberwise copy assignment that line 337 requests does
not mirror the copy constructor.  Two separately owning handles; after
assigning handle 1 into handle 0, the block of handle 1 has gained no
owner (shared_counter_ still 1, not 2) and the block handle 0 owned has
not been released (deleter count 0); destroying both handles then
underflows the doubly referenced block to shared_counter_ -1 while the
orphaned block never runs its deleter (the pointee leaks). -/
theorem C8_default_assign_diverges :
    ((stepDefaultAssign (run [Op.mkOwning (some 1), Op.mkOwning (some 2)]) 0 1).blocks 1).strong = 1 ∧
    ((stepDefaultAssign (run [Op.mkOwning (some 1), Op.mkOwning (some 2)]) 0 1).blocks 0).strong = 1 ∧
    ((stepDefaultAssign (run [Op.mkOwning (some 1), Op.mkOwning (some 2)]) 0 1).blocks 0).deleterCalls = 0 ∧
    ((step (step (stepDefaultAssign (run [Op.mkOwning (some 1), Op.mkOwning (some 2)]) 0 1)
        (Op.drop 0)) (Op.drop 1)).blocks 0).deleterCalls = 0 ∧
    ((step (step (stepDefaultAssign (run [Op.mkOwning (some 1), Op.mkOwning (some 2)]) 0 1)
        (Op.drop 0)) (Op.drop 1)).blocks 1).strong = -1 ∧
    ((step (step (stepDefaultAssign (run [Op.mkOwning (some 1), Op.mkOwning (some 2)]) 0 1)
        (Op.drop 0)) (Op.drop 1)).blocks 1).deleterCalls = 1 := by
  decide

/-- The expansion of the std swap call that shared_ptr swap (lines 346
to 351) makes on the two shared_state members, were shared_state
assignable: a temporary is move-constructed from the state of the first
handle (stealing base_, lines 155 to 158), the state of the second is
memberwise-assigned into the first, the temporary is memberwise-assigned
into the second, and the temporary is destroyed (lines 160 to 165),
running release on the block the first handle originally owned; the two
ptr_ fields are exchanged as well.  In C++ the call does not compile at
all: shared_state is neither copy assignable (deleted by its user
declared move constructor) nor move assignable, so no std swap overload
is viable, as g++ confirms on this header.  This function records the
semantics the written body asks for, to exhibit its divergence from the
no-reference-count-traffic contract. -/
def stepStdSwap (w : World) (i j : Nat) : World :=
  if i < w.nh ∧ j < w.nh ∧ (w.handles i).live = true ∧ (w.handles j).live = true then
    let tmpBlk := (w.handles i).blk
    let vi : SPtr := { ptr := (w.handles j).ptr, blk := (w.handles j).blk, live := true }
    let vj : SPtr := { ptr := (w.handles i).ptr, blk := tmpBlk, live := true }
    let w1 := { w with handles := updFn (updFn w.handles i vi) j vj }
    match tmpBlk with
    | some b => w1.modBlock b Block.release
    | Option.none => w1
  else w

/-- Claim C7: the std swap expansion that the swap body requests is not
reference-count neutral.  Two separately owning handles; after the
expansion the exposed pointers and states are exchanged, but the block
originally owned by the first handle has had its shared_counter_
decremented from 1 to 0 by the destruction of the temporary, its deleter
has run, and its storage has been freed, while the second handle still
references it. -/
theorem C7_swap_expansion_not_neutral :
    ((stepStdSwap (run [Op.mkOwning (some 1), Op.mkOwning (some 2)]) 0 1).handles 0).ptr = some 2 ∧
    ((stepStdSwap (run [Op.mkOwning (some 1), Op.mkOwning (some 2)]) 0 1).handles 1).ptr = some 1 ∧
    ((stepStdSwap (run [Op.mkOwning (some 1), Op.mkOwning (some 2)]) 0 1).handles 1).blk = some 0 ∧
    ((stepStdSwap (run [Op.mkOwning (some 1), Op.mkOwning (some 2)]) 0 1).blocks 0).strong = 0 ∧
    ((stepStdSwap (run [Op.mkOwning (some 1), Op.mkOwning (some 2)]) 0 1).blocks 0).deleterCalls = 1 ∧
    ((stepStdSwap (run [Op.mkOwning (some 1), Op.mkOwning (some 2)]) 0 1).blocks 0).destroyCalls = 1 := by
  decide

end SharedPtr2
